import Mathlib

/- Verification of the lead-enrichment pipeline (src/init_leads.py) and the
   text-signal scorer (src/leads_detectados.py) of go-is-es/landing_page_gois.
   Python strings are modelled as List Char; the decision logic of both
   scripts is pure string processing, so the translation is direct. -/

/-- Python str.strip: remove leading and trailing whitespace. -/
def pyStrip (s : List Char) : List Char :=
  ((s.dropWhile Char.isWhitespace).reverse.dropWhile Char.isWhitespace).reverse

/-- Python str.lower on the alphabet this repository handles: ASCII letters
    plus the accented Spanish letters occurring in its data tables. -/
def lowerChar (c : Char) : Char :=
  if c = 'Á' then 'á' else if c = 'É' then 'é' else if c = 'Í' then 'í'
  else if c = 'Ó' then 'ó' else if c = 'Ú' then 'ú' else if c = 'Ñ' then 'ñ'
  else if c = 'Ü' then 'ü' else c.toLower

/-- Python str.lower applied to a whole string. -/
def pyLower (s : List Char) : List Char := s.map lowerChar

/-- PERSONAL_DOMAINS from init_leads.py (lines 51-54). -/
def PERSONAL_DOMAINS : List (List Char) :=
  ["gmail.com", "hotmail.com", "outlook.com", "yahoo.com", "live.com", "icloud.com",
   "aol.com", "proton.me", "protonmail.com", "gmx.com", "gmx.es", "zoho.com"].map
    String.toList

/-- Character class [A-Z0-9._%+-] of EMAIL_REGEX, under re.IGNORECASE. -/
def isLocalChar (c : Char) : Bool :=
  c.isAlpha || c.isDigit || c == '.' || c == '_' || c == '%' || c == '+' || c == '-'

/-- Character class [A-Z0-9.-] of EMAIL_REGEX, under re.IGNORECASE. -/
def isHostChar (c : Char) : Bool :=
  c.isAlpha || c.isDigit || c == '.' || c == '-'

/-- Final segment of EMAIL_REGEX: two or more letters. -/
def tldOK (a : List Char) : Bool := decide (2 ≤ a.length) && a.all Char.isAlpha

/-- Fullmatch of the domain half of EMAIL_REGEX: one or more host characters,
    a literal dot, then the final all-letter segment.  The existential over the
    split position reproduces regex backtracking. -/
def domainMatch (d : List Char) : Bool :=
  (List.range d.length).any (fun i =>
    decide (0 < i) && (d.take i).all isHostChar && (d.getD i ' ' == '.')
      && tldOK (d.drop (i + 1)))

/-- Fullmatch of EMAIL_REGEX from init_leads.py (line 57): one or more local
    characters, an at-sign, then the domain half. -/
def EMAIL_REGEX_fullmatch (s : List Char) : Bool :=
  (List.range s.length).any (fun j =>
    decide (0 < j) && (s.take j).all isLocalChar && (s.getD j ' ' == '@')
      && domainMatch (s.drop (j + 1)))

/-- Python email.split at the at-sign, last component: everything after the
    final at-sign, or the whole string when there is none. -/
def afterLastAt (s : List Char) : List Char :=
  (s.reverse.takeWhile (fun c => c != '@')).reverse

/-- is_corporate_email from init_leads.py (lines 68-79). -/
def is_corporate_email (email : List Char) : Bool :=
  let e := pyLower (pyStrip email)
  if !EMAIL_REGEX_fullmatch e then false
  else
    let domain := afterLastAt e
    if domain ∈ PERSONAL_DOMAINS then false
    else
      let parts := List.splitOn '.' domain
      if 2 ≤ parts.length ∧
          List.intercalate ['.'] (parts.drop (parts.length - 2)) ∈ PERSONAL_DOMAINS then
        false
      else true

/-- classify_email from init_leads.py (lines 81-84). -/
def classify_email (email : List Char) : List Char :=
  if email = [] then ("no_encontrado").toList
  else if is_corporate_email email then ("corporativo").toList
  else ("personal").toList

/-- Denylist membership exactly as claim C1 words it: the domain after the
    final at-sign of the normalised address, or the suffix made of its last two
    dot-separated labels, is in the fixed personal-domain denylist. -/
def claimDenyDomain (a : List Char) : Prop :=
  afterLastAt (pyLower (pyStrip a)) ∈ PERSONAL_DOMAINS ∨
    (2 ≤ (List.splitOn '.' (afterLastAt (pyLower (pyStrip a)))).length ∧
      List.intercalate ['.']
        ((List.splitOn '.' (afterLastAt (pyLower (pyStrip a)))).drop
          ((List.splitOn '.' (afterLastAt (pyLower (pyStrip a)))).length - 2))
        ∈ PERSONAL_DOMAINS)

instance (a : List Char) : Decidable (claimDenyDomain a) := by
  unfold claimDenyDomain; infer_instance

theorem is_corporate_email_true_iff (a : List Char) :
    is_corporate_email a = true ↔
      (EMAIL_REGEX_fullmatch (pyLower (pyStrip a)) = true ∧ ¬ claimDenyDomain a) := by
  unfold is_corporate_email claimDenyDomain
  by_cases h1 : EMAIL_REGEX_fullmatch (pyLower (pyStrip a)) = true
  · by_cases h2 : afterLastAt (pyLower (pyStrip a)) ∈ PERSONAL_DOMAINS
    · simp [h1, h2]
    · by_cases h3 : 2 ≤ (List.splitOn '.' (afterLastAt (pyLower (pyStrip a)))).length ∧
          List.intercalate ['.']
            ((List.splitOn '.' (afterLastAt (pyLower (pyStrip a)))).drop
              ((List.splitOn '.' (afterLastAt (pyLower (pyStrip a)))).length - 2))
            ∈ PERSONAL_DOMAINS
      · simp [h1, h2, h3]
      · simp [h1, h2, h3]
  · simp [h1]

/-- C1, corrected.  The classification is no_encontrado exactly on the empty
    address; a non-empty address is personal exactly when it fails the
    syntactic email pattern or its domain (or last-two-label suffix) is
    denylisted, and corporativo otherwise. -/
theorem c1_classify_email_amended (a : List Char) :
    (classify_email a = ("no_encontrado").toList ↔ a = []) ∧
    (a ≠ [] → (classify_email a = ("personal").toList ↔
      (EMAIL_REGEX_fullmatch (pyLower (pyStrip a)) = false ∨ claimDenyDomain a))) ∧
    (a ≠ [] → (classify_email a = ("corporativo").toList ↔
      (EMAIL_REGEX_fullmatch (pyLower (pyStrip a)) = true ∧ ¬ claimDenyDomain a))) := by
  by_cases ha : a = []
  · subst ha
    refine ⟨by simp [classify_email], by simp, by simp⟩
  · have hiff := is_corporate_email_true_iff a
    by_cases hc : is_corporate_email a = true
    · have hspec := hiff.mp hc
      refine ⟨?_, fun _ => ?_, fun _ => ?_⟩
      · simp only [classify_email, if_neg ha, hc, if_true]
        constructor
        · intro h; exact absurd h (by decide)
        · intro h; exact absurd h ha
      · simp only [classify_email, if_neg ha, hc, if_true]
        constructor
        · intro h; exact absurd h (by decide)
        · rintro (h | h)
          · exact absurd hspec.1 (by simp [h])
          · exact absurd h hspec.2
      · simp only [classify_email, if_neg ha, hc, if_true]
        exact ⟨fun _ => hspec, fun _ => trivial⟩
    · have hc2 : is_corporate_email a = false := by
        cases h : is_corporate_email a
        · rfl
        · exact absurd h hc
      have hspec : ¬ (EMAIL_REGEX_fullmatch (pyLower (pyStrip a)) = true ∧ ¬ claimDenyDomain a) :=
        fun h => hc (hiff.mpr h)
      refine ⟨?_, fun _ => ?_, fun _ => ?_⟩
      · simp only [classify_email, if_neg ha, hc2, Bool.false_eq_true, if_false]
        constructor
        · intro h; exact absurd h (by decide)
        · intro h; exact absurd h ha
      · simp only [classify_email, if_neg ha, hc2, Bool.false_eq_true, if_false]
        constructor
        · intro _
          by_cases hm : EMAIL_REGEX_fullmatch (pyLower (pyStrip a)) = true
          · right
            by_contra hd
            exact hspec ⟨hm, hd⟩
          · left
            cases h : EMAIL_REGEX_fullmatch (pyLower (pyStrip a))
            · rfl
            · exact absurd h hm
        · intro _; trivial
      · simp only [classify_email, if_neg ha, hc2, Bool.false_eq_true, if_false]
        constructor
        · intro h; exact absurd h (by decide)
        · intro h; exact absurd h hspec

/-- Witness for C1: a concrete well-formed corporate address. -/
theorem c1_classify_email_amended_witness :
    ("info@acme.es").toList ≠ [] ∧
      classify_email (("info@acme.es").toList) = ("corporativo").toList :=
  ⟨by decide,
    ((c1_classify_email_amended (("info@acme.es").toList)).2.2 (by decide)).mpr (by decide)⟩

/-- Counterexample to C1 as stated: "foo@bar" is non-empty and its domain
    (after the final at-sign) is not denylisted, so the claim calls it
    corporate; the code classifies it personal because it fails EMAIL_REGEX. -/
theorem c1_counterexample :
    ("foo@bar").toList ≠ [] ∧ ¬ claimDenyDomain (("foo@bar").toList) ∧
      classify_email (("foo@bar").toList) = ("personal").toList ∧
      classify_email (("foo@bar").toList) ≠ ("corporativo").toList := by
  decide

/-- Fixed priority keyword list (init_leads.py line 279). -/
def priority : List (List Char) :=
  ["info@", "contact", "contacto", "comercial", "ventas", "admin@"].map String.toList

/-- Inner loop of the selection (lines 282-285): the first candidate, in
    iteration order, whose lower-cased form contains the keyword. -/
def findKeyword (p : List Char) (emails : List (List Char)) : Option (List Char) :=
  emails.find? (fun e => decide (p <:+: pyLower e))

/-- Outer loop of the selection (lines 281-287): keywords are tried in order,
    and the first keyword with a matching candidate decides. -/
def chooseByPriority : List (List Char) → List (List Char) → Option (List Char)
  | [], _ => none
  | p :: ps, emails =>
    match findKeyword p emails with
    | some e => some e
    | none => chooseByPriority ps emails

/-- Python sorted(emails)[0]: the least element in lexicographic order (the
    order on List Char agrees with Python string comparison). -/
def listMin : List (List Char) → List Char
  | [] => []
  | x :: xs => xs.foldl min x

/-- Line 288: email_found = chosen or sorted(emails)[0]. -/
def select_email (emails : List (List Char)) : List Char :=
  match chooseByPriority priority emails with
  | some e => e
  | none => listMin emails

/-- Crawl-loop email accumulation with the corporate short-circuit
    (init_leads.py lines 259-275).  Each element of pages stands for the
    set of addresses extracted from one successfully fetched candidate page
    (network fetch and HTML parsing are external); the accumulator is the
    running union.  As soon as the union contains a corporate address it is
    restricted to its corporate members and crawling stops. -/
def crawl_emails : List (List (List Char)) → List (List Char) → List (List Char)
  | [], acc => acc
  | page :: rest, acc =>
    let acc2 := acc ++ page.filter (fun e => decide (e ∉ acc))
    if acc2 ≠ [] then
      let corp := acc2.filter is_corporate_email
      if corp ≠ [] then corp else crawl_emails rest acc2
    else crawl_emails rest acc2

/-- Restriction to the corporate subset when any corporate address is present,
    as claim C2 words it; in the source this is realised by the crawl
    short-circuit, see crawl_emails and select_email_crawl_eq. -/
def corpPool (emails : List (List Char)) : List (List Char) :=
  if emails.any is_corporate_email then emails.filter is_corporate_email else emails

/-- Selection over a discovered candidate set with the corporate restriction
    made explicit. -/
def select_best (emails : List (List Char)) : List Char :=
  select_email (corpPool emails)

theorem chooseByPriority_mem (ps emails : List (List Char)) (c : List Char)
    (h : chooseByPriority ps emails = some c) :
    c ∈ emails ∧ ∃ p ∈ ps, p <:+: pyLower c := by
  induction ps with
  | nil => simp [chooseByPriority] at h
  | cons p ps ih =>
    rw [chooseByPriority] at h
    cases hf : findKeyword p emails with
    | some e =>
      rw [hf] at h
      simp only [Option.some.injEq] at h
      subst h
      refine ⟨List.mem_of_find?_eq_some hf, p, by simp, ?_⟩
      simpa using List.find?_some hf
    | none =>
      rw [hf] at h
      obtain ⟨hm, q, hq, hinf⟩ := ih h
      exact ⟨hm, q, by simp [hq], hinf⟩

theorem chooseByPriority_found (l₁ : List (List Char)) (p : List Char)
    (l₂ pool : List (List Char))
    (hnone : ∀ q ∈ l₁, findKeyword q pool = none) (c : List Char)
    (hc : findKeyword p pool = some c) :
    chooseByPriority (l₁ ++ p :: l₂) pool = some c := by
  induction l₁ with
  | nil => simp [chooseByPriority, hc]
  | cons a l₁ ih =>
    have ha : findKeyword a pool = none := hnone a (by simp)
    simp only [List.cons_append, chooseByPriority, ha]
    exact ih (fun q hq => hnone q (by simp [hq]))

theorem chooseByPriority_first_match (l₁ : List (List Char)) (p : List Char)
    (l₂ pool : List (List Char)) (hex : ∃ e ∈ pool, p <:+: pyLower e) :
    ∃ c, chooseByPriority (l₁ ++ p :: l₂) pool = some c ∧
      ∃ q ∈ l₁ ++ [p], q <:+: pyLower c := by
  induction l₁ with
  | nil =>
    have hsome : (findKeyword p pool).isSome = true := by
      rw [findKeyword, List.find?_isSome]
      obtain ⟨e, he, hinf⟩ := hex
      exact ⟨e, he, by simpa using hinf⟩
    obtain ⟨c, hc⟩ := Option.isSome_iff_exists.mp hsome
    have hpc : p <:+: pyLower c := by simpa using List.find?_some hc
    exact ⟨c, by simp [chooseByPriority, hc], p, by simp, hpc⟩
  | cons a l₁ ih =>
    cases hf : findKeyword a pool with
    | some e =>
      have hae : a <:+: pyLower e := by simpa using List.find?_some hf
      exact ⟨e, by simp [chooseByPriority, hf], a, by simp, hae⟩
    | none =>
      obtain ⟨c, hc, q, hq, hqc⟩ := ih
      exact ⟨c, by simp [List.cons_append, chooseByPriority, hf, hc],
        q, List.mem_cons_of_mem a hq, hqc⟩

theorem chooseByPriority_none (ps pool : List (List Char))
    (h : ∀ p ∈ ps, ∀ e ∈ pool, ¬ p <:+: pyLower e) :
    chooseByPriority ps pool = none := by
  induction ps with
  | nil => rfl
  | cons p ps ih =>
    have hf : findKeyword p pool = none := by
      rw [findKeyword, List.find?_eq_none]
      intro e he
      simpa using h p (by simp) e he
    simp [chooseByPriority, hf, ih (fun q hq e he => h q (by simp [hq]) e he)]

theorem foldl_min_mem (xs : List (List Char)) (x : List Char) :
    xs.foldl min x = x ∨ xs.foldl min x ∈ xs := by
  induction xs generalizing x with
  | nil => simp
  | cons y ys ih =>
    simp only [List.foldl_cons]
    rcases ih (min x y) with h | h
    · rw [h]
      rcases min_choice x y with hm | hm
      · left; exact hm
      · right; rw [hm]; exact List.mem_cons_self y ys
    · right; exact List.mem_cons_of_mem y h

theorem foldl_min_le (xs : List (List Char)) (x : List Char) :
    xs.foldl min x ≤ x ∧ ∀ y ∈ xs, xs.foldl min x ≤ y := by
  induction xs generalizing x with
  | nil => simp
  | cons z zs ih =>
    simp only [List.foldl_cons]
    obtain ⟨h1, h2⟩ := ih (min x z)
    refine ⟨le_trans h1 (min_le_left x z), ?_⟩
    intro y hy
    rcases List.mem_cons.mp hy with rfl | hy
    · exact le_trans h1 (min_le_right x y)
    · exact h2 y hy

theorem listMin_mem (l : List (List Char)) (h : l ≠ []) : listMin l ∈ l := by
  cases l with
  | nil => exact absurd rfl h
  | cons x xs =>
    simp only [listMin]
    rcases foldl_min_mem xs x with h1 | h1
    · rw [h1]; exact List.mem_cons_self x xs
    · exact List.mem_cons_of_mem x h1

theorem listMin_le (l : List (List Char)) : ∀ y ∈ l, listMin l ≤ y := by
  cases l with
  | nil => simp
  | cons x xs =>
    intro y hy
    rcases List.mem_cons.mp hy with rfl | hy
    · exact (foldl_min_le xs y).1
    · exact (foldl_min_le xs x).2 y hy

theorem crawl_emails_corp_cases (pages : List (List (List Char)))
    (acc : List (List Char)) (hacc : acc.filter is_corporate_email = []) :
    (crawl_emails pages acc).filter is_corporate_email = [] ∨
      ((crawl_emails pages acc).filter is_corporate_email = crawl_emails pages acc ∧
        crawl_emails pages acc ≠ []) := by
  induction pages generalizing acc with
  | nil => left; simpa [crawl_emails] using hacc
  | cons page rest ih =>
    simp only [crawl_emails]
    set acc2 := acc ++ page.filter (fun e => decide (e ∉ acc)) with hacc2
    by_cases h2 : acc2 ≠ []
    · rw [if_pos h2]
      by_cases h3 : acc2.filter is_corporate_email ≠ []
      · rw [if_pos h3]
        right
        exact ⟨by simp [List.filter_filter], h3⟩
      · rw [if_neg h3]
        push_neg at h3
        exact ih acc2 h3
    · rw [if_neg h2]
      push_neg at h2
      exact ih acc2 (by rw [h2]; rfl)

theorem select_email_crawl_eq (pages : List (List (List Char))) :
    select_email (crawl_emails pages []) = select_best (crawl_emails pages []) := by
  have h := crawl_emails_corp_cases pages [] (by simp)
  unfold select_best corpPool
  rcases h with h | ⟨h1, _⟩
  · have hany : (crawl_emails pages []).any is_corporate_email = false := by
      rw [← Bool.not_eq_true, List.any_eq_true]
      rintro ⟨e, he, hc⟩
      have : e ∈ (crawl_emails pages []).filter is_corporate_email :=
        List.mem_filter.mpr ⟨he, hc⟩
      simp [h] at this
    simp [hany]
  · by_cases hany : (crawl_emails pages []).any is_corporate_email = true <;>
      simp [hany, h1]

/-- C2: over the discovered candidate set, the corporate restriction dominates
    (any corporate candidate forces a corporate choice), keyword priority
    dominates the fallback (the chosen address carries a keyword at least as
    high as any keyword matched in the pool, and the first candidate matching
    the first matched keyword wins), and when no keyword matches the
    lexicographically smallest pool element is chosen.  The final conjunct ties
    this model to the crawl loop: after the corporate short-circuit, running
    the selection is the same as restricting-then-selecting. -/
theorem c2_select_best (emails : List (List Char)) (h : emails ≠ []) :
    select_best emails ∈ corpPool emails ∧
    ((∃ e ∈ emails, is_corporate_email e = true) →
      is_corporate_email (select_best emails) = true) ∧
    (∀ l₁ p l₂, priority = l₁ ++ p :: l₂ →
      (∃ e ∈ corpPool emails, p <:+: pyLower e) →
      ∃ q ∈ l₁ ++ [p], q <:+: pyLower (select_best emails)) ∧
    (∀ l₁ p l₂, priority = l₁ ++ p :: l₂ →
      (∀ q ∈ l₁, findKeyword q (corpPool emails) = none) →
      ∀ c, findKeyword p (corpPool emails) = some c → select_best emails = c) ∧
    ((∀ p ∈ priority, ∀ e ∈ corpPool emails, ¬ p <:+: pyLower e) →
      select_best emails = listMin (corpPool emails) ∧
      ∀ e ∈ corpPool emails, select_best emails ≤ e) ∧
    (∀ pages, select_email (crawl_emails pages []) = select_best (crawl_emails pages [])) := by
  have hpool : corpPool emails ≠ [] := by
    unfold corpPool
    by_cases hany : emails.any is_corporate_email = true
    · rw [if_pos hany]
      obtain ⟨e, he, hc⟩ := List.any_eq_true.mp hany
      intro hnil
      have : e ∈ emails.filter is_corporate_email := List.mem_filter.mpr ⟨he, hc⟩
      rw [hnil] at this
      simp at this
    · rw [if_neg hany]; exact h
  have hmem : select_best emails ∈ corpPool emails := by
    unfold select_best select_email
    cases hc : chooseByPriority priority (corpPool emails) with
    | some c =>
      simpa using (chooseByPriority_mem _ _ _ hc).1
    | none =>
      simpa using listMin_mem _ hpool
  refine ⟨hmem, ?_, ?_, ?_, ?_, select_email_crawl_eq⟩
  · rintro ⟨e, he, hcorp⟩
    have hany : emails.any is_corporate_email = true :=
      List.any_eq_true.mpr ⟨e, he, hcorp⟩
    have hfil : corpPool emails = emails.filter is_corporate_email := by
      unfold corpPool; rw [if_pos hany]
    exact List.of_mem_filter (hfil ▸ hmem)
  · intro l₁ p l₂ hpri hex
    obtain ⟨c, hc, q, hq, hqc⟩ := chooseByPriority_first_match l₁ p l₂ (corpPool emails) hex
    have hsel : select_best emails = c := by
      unfold select_best select_email
      rw [hpri, hc]
    exact ⟨q, hq, hsel ▸ hqc⟩
  · intro l₁ p l₂ hpri hnone c hc
    have hfound := chooseByPriority_found l₁ p l₂ (corpPool emails) hnone c hc
    unfold select_best select_email
    rw [hpri, hfound]
  · intro hno
    have hnone := chooseByPriority_none priority (corpPool emails) hno
    have hsel : select_best emails = listMin (corpPool emails) := by
      unfold select_best select_email
      rw [hnone]
    exact ⟨hsel, fun e he => hsel ▸ listMin_le _ e he⟩

/-- Witness for C2 at a concrete two-candidate set. -/
theorem c2_select_best_witness :
    select_best ((["zeta@acme.es", "info@acme.es"]).map String.toList) ∈
      corpPool ((["zeta@acme.es", "info@acme.es"]).map String.toList) :=
  (c2_select_best ((["zeta@acme.es", "info@acme.es"]).map String.toList) (by decide)).1

/-- Priority keyword list with contacto removed, per claim C10. -/
def priorityNoContacto : List (List Char) :=
  ["info@", "contact", "comercial", "ventas", "admin@"].map String.toList

/-- Selection procedure run with the reduced keyword list. -/
def select_email_noContacto (emails : List (List Char)) : List Char :=
  match chooseByPriority priorityNoContacto emails with
  | some e => e
  | none => listMin emails

theorem findKeyword_contacto_none (emails : List (List Char))
    (h : findKeyword (("contact").toList) emails = none) :
    findKeyword (("contacto").toList) emails = none := by
  rw [findKeyword, List.find?_eq_none] at h ⊢
  intro e he
  have hct := h e he
  simp only [decide_eq_true_eq] at hct ⊢
  intro hcto
  exact hct ((by decide : ("contact").toList <:+: ("contacto").toList).trans hcto)

/-- C10: the keyword contacto never decides the selection, because any
    candidate containing contacto also contains contact, which is tried
    earlier; removing contacto from the priority list never changes the
    result. -/
theorem c10_contacto_redundant (emails : List (List Char)) :
    select_email emails = select_email_noContacto emails := by
  unfold select_email select_email_noContacto priority priorityNoContacto
  simp only [List.map]
  simp only [chooseByPriority]
  cases h1 : findKeyword (String.toList "info@") emails with
  | some e => rfl
  | none =>
    simp only [h1]
    cases h2 : findKeyword (String.toList "contact") emails with
    | some e => rfl
    | none =>
      simp only [h2]
      rw [findKeyword_contacto_none emails h2]

/-- One output row of the place pipeline (init_leads.py lines 291-305).  The
    constant metadata columns fuente, query and fecha_extraccion carry no
    decision logic and are not read by any scorer or dedup step, so they are
    omitted. -/
structure Row where
  empresa : List Char
  web : List Char
  email : List Char
  email_tipo : List Char
  telefono : List Char
  direccion : List Char
  ciudad : List Char
  provincia : List Char
  pais : List Char
  categoria : List Char
deriving DecidableEq

/-- Python round(x, 2).  Every score arising here is an exact multiple of one
    tenth, on which binary-float rounding agrees with exact rational
    rounding. -/
def round2 (q : ℚ) : ℚ := (round (q * 100) : ℤ) / 100

/-- score_lead from init_leads.py (lines 138-154); truthiness of a string
    field is non-emptiness. -/
def score_lead (row : Row) : ℚ :=
  let s0 : ℚ := 0
  let s1 := if row.web ≠ [] then s0 + 0.3 else s0
  let s2 := if classify_email row.email = ("corporativo").toList then s1 + 0.3 else s1
  let s3 := if row.telefono ≠ [] then s2 + 0.2 else s2
  let s4 := if row.ciudad ≠ [] then s3 + 0.1 else s3
  let s5 := if row.categoria ≠ [] then s4 + 0.1 else s4
  round2 (min s5 1)

/-- Score of a row counted in tenths, before the cap at 1.0. -/
def tenths (row : Row) : ℕ :=
  (if row.web ≠ [] then 3 else 0) +
  (if classify_email row.email = ("corporativo").toList then 3 else 0) +
  (if row.telefono ≠ [] then 2 else 0) +
  (if row.ciudad ≠ [] then 1 else 0) +
  (if row.categoria ≠ [] then 1 else 0)

theorem score_lead_eq_tenths (row : Row) :
    score_lead row = ((min (tenths row) 10 : ℕ) : ℚ) / 10 := by
  unfold score_lead tenths
  simp only [show ("corporativo").toList = ['c','o','r','p','o','r','a','t','i','v','o'] from rfl]
  by_cases h1 : row.web ≠ [] <;>
  by_cases h2 : classify_email row.email = ['c','o','r','p','o','r','a','t','i','v','o'] <;>
  by_cases h3 : row.telefono ≠ [] <;>
  by_cases h4 : row.ciudad ≠ [] <;>
  by_cases h5 : row.categoria ≠ [] <;>
    norm_num [h1, h2, h3, h4, h5, round2, round_eq, min_def]

/-- Lead score as claim C3 words it: the five independent bonuses summed from
    0.0, clamped to the unit interval, rounded to two decimals. -/
def claimScore (row : Row) : ℚ :=
  round2 (max 0 (min 1
    ((if row.web ≠ [] then (0.3 : ℚ) else 0) +
     (if classify_email row.email = ("corporativo").toList then (0.3 : ℚ) else 0) +
     (if row.telefono ≠ [] then (0.2 : ℚ) else 0) +
     (if row.ciudad ≠ [] then (0.1 : ℚ) else 0) +
     (if row.categoria ≠ [] then (0.1 : ℚ) else 0))))

theorem claimScore_eq_tenths (row : Row) :
    claimScore row = ((min (tenths row) 10 : ℕ) : ℚ) / 10 := by
  unfold claimScore tenths
  simp only [show ("corporativo").toList = ['c','o','r','p','o','r','a','t','i','v','o'] from rfl]
  by_cases h1 : row.web ≠ [] <;>
  by_cases h2 : classify_email row.email = ['c','o','r','p','o','r','a','t','i','v','o'] <;>
  by_cases h3 : row.telefono ≠ [] <;>
  by_cases h4 : row.ciudad ≠ [] <;>
  by_cases h5 : row.categoria ≠ [] <;>
    norm_num [h1, h2, h3, h4, h5, round2, round_eq, min_def, max_def]

/-- C3: score_lead is exactly the claimed sum of the five independent bonuses,
    clamped to the unit interval and rounded to two decimals. -/
theorem c3_score_lead_eq_claimScore (row : Row) :
    score_lead row = claimScore row := by
  rw [score_lead_eq_tenths, claimScore_eq_tenths]

/-- C9: filling any previously-absent field never decreases the score, and the
    score always lies in the unit interval with exactly two decimals. -/
theorem c9_score_lead_monotone_bounds (row : Row) :
    (row.web = [] → ∀ v, score_lead row ≤ score_lead { row with web := v }) ∧
    (row.email = [] → ∀ v, score_lead row ≤ score_lead { row with email := v }) ∧
    (row.telefono = [] → ∀ v, score_lead row ≤ score_lead { row with telefono := v }) ∧
    (row.ciudad = [] → ∀ v, score_lead row ≤ score_lead { row with ciudad := v }) ∧
    (row.categoria = [] → ∀ v, score_lead row ≤ score_lead { row with categoria := v }) ∧
    0 ≤ score_lead row ∧ score_lead row ≤ 1 ∧
    (∃ n : ℤ, score_lead row = (n : ℚ) / 100) := by
  have mono : ∀ r s : Row, tenths r ≤ tenths s → score_lead r ≤ score_lead s := by
    intro r s hle
    rw [score_lead_eq_tenths r, score_lead_eq_tenths s]
    have h10 : min (tenths r) 10 ≤ min (tenths s) 10 := min_le_min hle (le_refl 10)
    have hc : ((min (tenths r) 10 : ℕ) : ℚ) ≤ ((min (tenths s) 10 : ℕ) : ℚ) := by
      exact_mod_cast h10
    linarith
  have hclnil : ¬ (classify_email ([] : List Char) = ("corporativo").toList) := by decide
  refine ⟨?_, ?_, ?_, ?_, ?_, ?_, ?_, ?_⟩
  · intro hw v
    apply mono
    unfold tenths
    simp only [hw]
    by_cases hv : v = [] <;> simp [hv]
  · intro he v
    apply mono
    unfold tenths
    simp only [he, hclnil]
    by_cases hv : classify_email v = ("corporativo").toList <;> simp [hv]
  · intro ht v
    apply mono
    unfold tenths
    simp only [ht]
    by_cases hv : v = [] <;> simp [hv]
  · intro hc v
    apply mono
    unfold tenths
    simp only [hc]
    by_cases hv : v = [] <;> simp [hv]
  · intro hk v
    apply mono
    unfold tenths
    simp only [hk]
    by_cases hv : v = [] <;> simp [hv]
  · rw [score_lead_eq_tenths]
    positivity
  · rw [score_lead_eq_tenths]
    have h10 : min (tenths row) 10 ≤ 10 := min_le_right _ _
    have hc : ((min (tenths row) 10 : ℕ) : ℚ) ≤ 10 := by exact_mod_cast h10
    linarith
  · refine ⟨(min (tenths row) 10 : ℕ) * 10, ?_⟩
    rw [score_lead_eq_tenths]
    push_cast
    ring

/-- Concrete row with every field empty, used by the C9 witness. -/
def rowEmpty : Row :=
  { empresa := [], web := [], email := [], email_tipo := [], telefono := [],
    direccion := [], ciudad := [], provincia := [], pais := [], categoria := [] }

/-- Witness for C9: filling the web field of an empty row does not decrease
    its score. -/
theorem c9_score_lead_monotone_bounds_witness :
    score_lead rowEmpty ≤ score_lead { rowEmpty with web := ("http://acme.es").toList } :=
  (c9_score_lead_monotone_bounds rowEmpty).1 rfl (("http://acme.es").toList)

/-- Word character for the regex word boundary: Python re counts letters,
    digits and underscore, including the accented letters used in this
    repository. -/
def isWordChar (c : Char) : Bool :=
  c.isAlphanum || c == '_' || ['á','é','í','ó','ú','ü','ñ'].contains c

/-- Whether the character just before position j is a word character. -/
def wordBefore (t : List Char) (j : Nat) : Bool :=
  match j with
  | 0 => false
  | Nat.succ i => isWordChar (t.getD i ' ')

/-- Whether the character at position j is a word character. -/
def wordAt (t : List Char) (j : Nat) : Bool := isWordChar (t.getD j ' ')

/-- Regex word boundary at position j: exactly one side is a word character. -/
def boundaryAt (t : List Char) (j : Nat) : Bool := wordBefore t j != wordAt t j

/-- One alternative of a signal pattern: a literal to find, with optional word
    boundaries required at its left and right ends. -/
structure Branch where
  lbound : Bool
  lit : List Char
  rbound : Bool
deriving DecidableEq

/-- Whether the branch matches at position i of t. -/
def branchMatchAt (t : List Char) (b : Branch) (i : Nat) : Bool :=
  ((t.drop i).take b.lit.length == b.lit) &&
    (!b.lbound || boundaryAt t i) && (!b.rbound || boundaryAt t (i + b.lit.length))

/-- re.search of the branch: does it match anywhere in t. -/
def branchSearch (t : List Char) (b : Branch) : Bool :=
  (List.range t.length).any (fun i => branchMatchAt t b i)

/-- One scoring rule: a regex modelled as the finite list of its literal
    alternatives, plus its integer weight.  Optional groups such as a plural s
    and two-way alternations are expanded into the separate literals. -/
structure Signal where
  branches : List Branch
  weight : ℤ
deriving DecidableEq

/-- re.search of the whole pattern. -/
def signalMatch (t : List Char) (s : Signal) : Bool := s.branches.any (branchSearch t)

/-- Branch bounded by word boundaries on both sides. -/
def bb (w : String) : Branch := ⟨true, w.toList, true⟩

/-- Branch with a word boundary on the left only. -/
def lb (w : String) : Branch := ⟨true, w.toList, false⟩

/-- Branch with a word boundary on the right only. -/
def rb (w : String) : Branch := ⟨false, w.toList, true⟩

/-- Branch with no word boundary requirement. -/
def nb (w : String) : Branch := ⟨false, w.toList, false⟩

/-- Alternatives of the money pattern: the digits, an optional single
    whitespace character (space, tab, newline or carriage return stand in for
    the regex whitespace class), then the euro sign. -/
def moneyBranches (digits : String) (l r : Bool) : List Branch :=
  ⟨l, digits.toList ++ ['€'], r⟩ ::
    [' ', '\t', '\n', '\r'].map (fun c => ⟨l, digits.toList ++ [c, '€'], r⟩)

/-- POSITIVE_SIGNALS from leads_detectados.py (lines 33-49), with each regex
    expanded into its literal alternatives.  The migrar rule is the alternation
    of word-start migrar and word-end migración. -/
def POSITIVE_SIGNALS : List Signal :=
  [⟨[bb ("proceso"), bb ("procesos")], 3⟩,
   ⟨[bb ("sistema"), bb ("sistemas")], 3⟩,
   ⟨[bb ("operacion"), bb ("operación"), bb ("operaciones"), bb ("operaciónes")], 3⟩,
   ⟨[bb ("flujo"), bb ("flujos")], 3⟩,
   ⟨[bb ("automatizar"), bb ("automatización")], 3⟩,
   ⟨[bb ("integracion"), bb ("integración"), bb ("integraciones"), bb ("integraciónes")], 5⟩,
   ⟨[bb ("api"), bb ("apis")], 4⟩,
   ⟨[bb ("crm")], 4⟩,
   ⟨[bb ("erp")], 4⟩,
   ⟨[bb ("base de datos")], 4⟩,
   ⟨[bb ("postgre"), bb ("postgres"), bb ("postgresql")], 4⟩,
   ⟨[bb ("backend")], 3⟩,
   ⟨[bb ("dato"), bb ("datos")], 3⟩,
   ⟨[lb ("migrar"), rb ("migración")], 4⟩,
   ⟨[bb ("sistema actual")], 5⟩]

/-- NEGATIVE_SIGNALS from leads_detectados.py (lines 51-65), expanded the same
    way; the money rule is the three-way alternation with the boundary only at
    the far ends, and the prompt and n8n rules likewise keep their boundaries
    only on the outer alternatives. -/
def NEGATIVE_SIGNALS : List Signal :=
  [⟨[bb ("wordpress")], -5⟩,
   ⟨[bb ("wix")], -5⟩,
   ⟨[bb ("shopify")], -4⟩,
   ⟨[bb ("landing")], -4⟩,
   ⟨[bb ("chatbot")], -4⟩,
   ⟨[bb ("bot")], -3⟩,
   ⟨[bb ("instagram")], -3⟩,
   ⟨[bb ("redes sociales")], -3⟩,
   ⟨[bb ("seo")], -3⟩,
   ⟨[bb ("marketing")], -3⟩,
   ⟨moneyBranches ("100") true false ++ moneyBranches ("200") false false ++
      moneyBranches ("300") false true, -8⟩,
   ⟨[lb ("solo prompt"), rb ("prompt")], -6⟩,
   ⟨[lb ("n8n"), nb ("zapier"), rb ("make")], -3⟩]

/-- compute_score from leads_detectados.py (lines 67-76). -/
def compute_score (text : List Char) : ℤ :=
  let t := pyLower text
  let s1 := POSITIVE_SIGNALS.foldl (fun acc s => if signalMatch t s then acc + s.weight else acc) 0
  NEGATIVE_SIGNALS.foldl (fun acc s => if signalMatch t s then acc + s.weight else acc) s1

/-- Whether any of the plain-substring alternatives occurs in t. -/
def containsAny (t : List Char) (pats : List String) : Bool :=
  pats.any (fun p => decide (p.toList <:+: t))

/-- infer_problem from leads_detectados.py (lines 78-90): six rule groups
    tried in a fixed priority order, each an alternation of plain
    substrings. -/
def infer_problem (text : List Char) : List Char :=
  let t := pyLower text
  if containsAny t ["no funcion", "fall", "reabrimos", "mal implementado"] then
    ("Intento previo fallido / mala implementación").toList
  else if containsAny t ["integraci", "api", "webhook"] then
    ("Necesidad de integrar sistemas o datos").toList
  else if containsAny t ["excel", "manual"] then
    ("Proceso manual crítico / dependencia de Excel").toList
  else if containsAny t ["leads", "crm", "pipeline"] then
    ("Gestión ineficiente de leads o ventas").toList
  else if containsAny t ["report", "dashboard"] then
    ("Reporting manual o inexistente").toList
  else ("Problema operativo no especificado (requiere revisión)").toList

/-- One posting row of the harvest pipeline (leads_detectados.py lines
    122-136); fields with no decision logic (source, date, link, company) are
    omitted.  The combined text is title, a space, then description. -/
structure PostRow where
  titulo : List Char
  descripcion : List Char
  problema_detectado : List Char
  score_dolor : ℤ
deriving DecidableEq

/-- Row construction from a parsed posting (lines 122-136). -/
def buildPostRow (title desc : List Char) : PostRow :=
  ⟨title, desc, infer_problem (title ++ [' '] ++ desc),
    compute_score (title ++ [' '] ++ desc)⟩

/-- The minimum-score filter of the harvest pipeline (line 163). -/
def score_filter (rows : List PostRow) : List PostRow :=
  rows.filter (fun r => decide (5 ≤ r.score_dolor))

theorem foldl_signal_sum (t : List Char) (l : List Signal) (a : ℤ) :
    l.foldl (fun acc s => if signalMatch t s then acc + s.weight else acc) a
      = a + (l.map (fun s => if signalMatch t s then s.weight else 0)).sum := by
  induction l generalizing a with
  | nil => simp
  | cons s rest ih =>
    simp only [List.foldl_cons, List.map_cons, List.sum_cons]
    by_cases h : signalMatch t s <;> simp [h, ih] <;> ring

/-- C4: compute_score is the sum over the two fixed rule lists of each matched
    rule weight, counted exactly once per rule — presence of a match decides,
    not the number of occurrences; as a concrete instance, a text consisting of
    sistema actual gets both the sistema weight and the sistema actual weight,
    each exactly once, totalling 3 + 5. -/
theorem c4_compute_score_sum (text : List Char) :
    compute_score text =
      ((POSITIVE_SIGNALS ++ NEGATIVE_SIGNALS).map
        (fun s => if signalMatch (pyLower text) s then s.weight else 0)).sum ∧
    compute_score (("sistema actual").toList) = 3 + 5 ∧
    signalMatch (pyLower (("sistema actual").toList)) (POSITIVE_SIGNALS.getD 1 ⟨[], 0⟩) = true ∧
    signalMatch (pyLower (("sistema actual").toList)) (POSITIVE_SIGNALS.getD 14 ⟨[], 0⟩) = true := by
  refine ⟨?_, by decide, by decide, by decide⟩
  unfold compute_score
  rw [List.map_append, List.sum_append, foldl_signal_sum, foldl_signal_sum]
  ring

/-- Counterexample to C5 as stated: this text matches both the api pattern and
    the excel pattern, yet infer_problem returns the failed-attempt label and
    not the integration label, because the failure check runs first. -/
theorem c5_counterexample :
    (("api").toList <:+: pyLower (("api excel no funciona").toList)) ∧
    (("excel").toList <:+: pyLower (("api excel no funciona").toList)) ∧
    infer_problem (("api excel no funciona").toList) =
      ("Intento previo fallido / mala implementación").toList ∧
    infer_problem (("api excel no funciona").toList) ≠
      ("Necesidad de integrar sistemas o datos").toList := by
  decide

/-- C5, corrected: a text matching both the api and excel patterns never gets
    the manual-process label, and gets the integration label exactly whenever
    the failure pattern does not match; when the failure pattern matches, the
    failed-attempt check preempts the integration check. -/
theorem c5_infer_problem_amended (t : List Char)
    (hapi : ("api").toList <:+: pyLower t)
    (hexcel : ("excel").toList <:+: pyLower t) :
    infer_problem t ≠ ("Proceso manual crítico / dependencia de Excel").toList ∧
    (containsAny (pyLower t) ["no funcion", "fall", "reabrimos", "mal implementado"] = false →
      infer_problem t = ("Necesidad de integrar sistemas o datos").toList) := by
  have hint : containsAny (pyLower t) ["integraci", "api", "webhook"] = true := by
    unfold containsAny
    rw [List.any_eq_true]
    exact ⟨"api", by simp, by simpa using hapi⟩
  unfold infer_problem
  by_cases hfail :
      containsAny (pyLower t) ["no funcion", "fall", "reabrimos", "mal implementado"] = true
  · rw [if_pos hfail]
    refine ⟨by decide, fun hf => ?_⟩
    rw [hf] at hfail
    exact absurd hfail (by decide)
  · rw [if_neg hfail, if_pos hint]
    exact ⟨by decide, fun _ => rfl⟩

/-- Witness for C5 at a concrete text with no failure language. -/
theorem c5_infer_problem_amended_witness :
    infer_problem (("api excel").toList) =
      ("Necesidad de integrar sistemas o datos").toList :=
  (c5_infer_problem_amended (("api excel").toList) (by decide) (by decide)).2 (by decide)

/-- Combined title-space-description text of the C6 posting. -/
def c6Text : List Char :=
  ("Backend API integration CRM").toList ++ [' '] ++ ("migración postgres").toList

/-- Counterexample to C6 as stated: the combined text does not score 20; the
    integración rule never matches the English word integration. -/
theorem c6_counterexample :
    compute_score c6Text = 19 ∧ compute_score c6Text ≠ 20 := by
  decide

/-- C6, corrected: the posting scores 19 = backend 3 + api 4 + crm 4 +
    migración 4 + postgres 4, with the integración rule not matching and no
    negative rule matching, and 19 is at least the threshold 5, so the row
    passes the minimum-score filter. -/
theorem c6_posting_passes_filter :
    (buildPostRow (("Backend API integration CRM").toList)
        (("migración postgres").toList)).score_dolor = 19 ∧
    signalMatch (pyLower c6Text) (POSITIVE_SIGNALS.getD 11 ⟨[], 0⟩) = true ∧
    signalMatch (pyLower c6Text) (POSITIVE_SIGNALS.getD 6 ⟨[], 0⟩) = true ∧
    signalMatch (pyLower c6Text) (POSITIVE_SIGNALS.getD 7 ⟨[], 0⟩) = true ∧
    signalMatch (pyLower c6Text) (POSITIVE_SIGNALS.getD 13 ⟨[], 0⟩) = true ∧
    signalMatch (pyLower c6Text) (POSITIVE_SIGNALS.getD 10 ⟨[], 0⟩) = true ∧
    signalMatch (pyLower c6Text) (POSITIVE_SIGNALS.getD 5 ⟨[], 0⟩) = false ∧
    NEGATIVE_SIGNALS.all (fun s => !signalMatch (pyLower c6Text) s) = true ∧
    5 ≤ (buildPostRow (("Backend API integration CRM").toList)
        (("migración postgres").toList)).score_dolor ∧
    buildPostRow (("Backend API integration CRM").toList) (("migración postgres").toList) ∈
      score_filter [buildPostRow (("Backend API integration CRM").toList)
        (("migración postgres").toList)] := by
  decide

/-- clean_phone from init_leads.py (lines 86-89): keep only digits and the
    plus sign. -/
def clean_phone (phone : List Char) : List Char :=
  phone.filter (fun c => c.isDigit || c == '+')

/-- Characters allowed in a URL scheme. -/
def isSchemeChar (c : Char) : Bool := c.isAlphanum || c == '+' || c == '-' || c == '.'

/-- Scheme and remainder of urlparse: the part before the first colon is the
    scheme when it is a letter followed by scheme characters; it is
    lowercased. -/
def urlSchemeSplit (u : List Char) : List Char × List Char :=
  match u.findIdx? (fun c => c == ':') with
  | some i =>
    if u.take i ≠ [] ∧ ((u.take i).getD 0 ' ').isAlpha ∧ (u.take i).all isSchemeChar then
      (pyLower (u.take i), u.drop (i + 1))
    else ([], u)
  | none => ([], u)

/-- Netloc of urlparse: after a leading double slash, everything up to the
    first slash, question mark or hash. -/
def urlNetloc (rest : List Char) : List Char :=
  if rest.take 2 = ("//").toList then
    (rest.drop 2).takeWhile (fun c => !(c == '/' || c == '?' || c == '#'))
  else []

/-- normalize_website from init_leads.py (lines 127-136): strip, prefix the
    default scheme when the string does not start with http, and reduce to
    scheme-colon-slash-slash-netloc via urlparse (modelled for the
    scheme-and-host URLs this pipeline passes around). -/
def normalize_website (url : List Char) : List Char :=
  if url = [] then []
  else
    let u := pyStrip url
    let u2 := if u.take 4 = ("http").toList then u else ("http://").toList ++ u
    (urlSchemeSplit u2).1 ++ ("://").toList ++ urlNetloc (urlSchemeSplit u2).2

theorem normalize_website_ne_nil (u : List Char) (h : u ≠ []) :
    normalize_website u ≠ [] := by
  unfold normalize_website
  rw [if_neg h]
  intro hcon
  simp at hcon

/-- Fields of a Place Details result read by the row assembly (init_leads.py
    lines 234-244); each address component pairs a long_name with its types
    list. -/
structure PlaceDetails where
  name : List Char
  formatted_address : List Char
  formatted_phone_number : List Char
  website : List Char
  types : List (List Char)
  address_components : List (List Char × List (List Char))

/-- address_component from init_leads.py (lines 201-205): the long_name of the
    first component carrying the requested type. -/
def address_component (d : PlaceDetails) (typ : List Char) : List Char :=
  match d.address_components.find? (fun c => decide (typ ∈ c.2)) with
  | some c => c.1
  | none => []

/-- Row assembly from place details (init_leads.py lines 234-244 and
    291-306). -/
def mkRow (d : PlaceDetails) (website email email_tipo : List Char) : Row :=
  { empresa := pyStrip d.name
    web := website
    email := email
    email_tipo := email_tipo
    telefono := clean_phone d.formatted_phone_number
    direccion := pyStrip d.formatted_address
    ciudad := if address_component d (("locality").toList) ≠ [] then
        address_component d (("locality").toList)
      else address_component d (("postal_town").toList)
    provincia := address_component d (("administrative_area_level_2").toList)
    pais := address_component d (("country").toList)
    categoria := if d.types ≠ [] then List.intercalate ((", ").toList) d.types else [] }

/-- Per-place step of the enrichment pipeline (init_leads.py lines 234-307):
    from the dedup set of already-crawled registrable domains, the fetched
    details, the registrable-domain function (standing for the external
    tldextract library) and the per-page extracted addresses (standing for the
    network), produce the emitted row, the updated dedup set, and whether a
    crawl was attempted. -/
def processPlace (regDom : List Char → List Char) (seen : List (List Char))
    (d : PlaceDetails) (pages : List (List (List Char))) :
    Row × List (List Char) × Bool :=
  let website := if d.website ≠ [] then normalize_website d.website else []
  if website ≠ [] then
    let domain := regDom website
    if domain ≠ [] ∧ domain ∈ seen then
      (mkRow d website [] (("no_encontrado").toList), seen, false)
    else
      let seen2 := if domain ≠ [] then domain :: seen else seen
      let emails := crawl_emails pages []
      if emails ≠ [] then
        (mkRow d website (select_email emails) (classify_email (select_email emails)),
          seen2, true)
      else
        (mkRow d website [] (("no_encontrado").toList), seen2, true)
  else (mkRow d [] [] (("no_encontrado").toList), seen, false)

theorem processPlace_seen_domain (regDom : List Char → List Char)
    (seen : List (List Char)) (d : PlaceDetails) (pages : List (List (List Char)))
    (hw : d.website ≠ [])
    (hdom : regDom (normalize_website d.website) ≠ [] ∧
      regDom (normalize_website d.website) ∈ seen) :
    processPlace regDom seen d pages =
      (mkRow d (normalize_website d.website) [] (("no_encontrado").toList), seen, false) := by
  simp only [processPlace, if_pos hw,
    if_pos (normalize_website_ne_nil d.website hw), if_pos hdom]

theorem processPlace_new_domain (regDom : List Char → List Char)
    (seen : List (List Char)) (d : PlaceDetails) (pages : List (List (List Char)))
    (hw : d.website ≠ [])
    (hnd : ¬ (regDom (normalize_website d.website) ≠ [] ∧
      regDom (normalize_website d.website) ∈ seen)) :
    (processPlace regDom seen d pages).2.2 = true ∧
    (processPlace regDom seen d pages).2.1 =
      (if regDom (normalize_website d.website) ≠ [] then
        regDom (normalize_website d.website) :: seen
      else seen) := by
  simp only [processPlace, if_pos hw,
    if_pos (normalize_website_ne_nil d.website hw), if_neg hnd]
  by_cases he : crawl_emails pages [] ≠ []
  · rw [if_pos he]; exact ⟨rfl, rfl⟩
  · rw [if_neg he]; exact ⟨rfl, rfl⟩

/-- C7: of two places with the same non-empty registrable website domain, only
    the first triggers a crawl; the second is still emitted, with its
    directory-sourced fields, an empty email and the no_encontrado tag. -/
theorem c7_domain_dedup (regDom : List Char → List Char) (seen : List (List Char))
    (d1 d2 : PlaceDetails) (pages1 pages2 : List (List (List Char)))
    (h1 : d1.website ≠ []) (h2 : d2.website ≠ [])
    (hdom : regDom (normalize_website d2.website) = regDom (normalize_website d1.website))
    (hne : regDom (normalize_website d1.website) ≠ [])
    (hnew : regDom (normalize_website d1.website) ∉ seen) :
    (processPlace regDom seen d1 pages1).2.2 = true ∧
    (processPlace regDom (processPlace regDom seen d1 pages1).2.1 d2 pages2).2.2 = false ∧
    (processPlace regDom (processPlace regDom seen d1 pages1).2.1 d2 pages2).1.email = [] ∧
    (processPlace regDom (processPlace regDom seen d1 pages1).2.1 d2 pages2).1.email_tipo =
      ("no_encontrado").toList ∧
    (processPlace regDom (processPlace regDom seen d1 pages1).2.1 d2 pages2).1.empresa =
      pyStrip d2.name ∧
    (processPlace regDom (processPlace regDom seen d1 pages1).2.1 d2 pages2).1.web =
      normalize_website d2.website ∧
    (processPlace regDom (processPlace regDom seen d1 pages1).2.1 d2 pages2).1.telefono =
      clean_phone d2.formatted_phone_number ∧
    (processPlace regDom (processPlace regDom seen d1 pages1).2.1 d2 pages2).1.direccion =
      pyStrip d2.formatted_address ∧
    (processPlace regDom (processPlace regDom seen d1 pages1).2.1 d2 pages2).1.ciudad =
      (if address_component d2 (("locality").toList) ≠ [] then
        address_component d2 (("locality").toList)
      else address_component d2 (("postal_town").toList)) ∧
    (processPlace regDom (processPlace regDom seen d1 pages1).2.1 d2 pages2).1.categoria =
      (if d2.types ≠ [] then List.intercalate ((", ").toList) d2.types else []) := by
  have hnd1 : ¬ (regDom (normalize_website d1.website) ≠ [] ∧
      regDom (normalize_website d1.website) ∈ seen) := fun hcon => hnew hcon.2
  have step1 := processPlace_new_domain regDom seen d1 pages1 h1 hnd1
  have hseen1 : (processPlace regDom seen d1 pages1).2.1 =
      regDom (normalize_website d1.website) :: seen := by
    rw [step1.2, if_pos hne]
  have hdm2 : regDom (normalize_website d2.website) ≠ [] ∧
      regDom (normalize_website d2.website) ∈ (processPlace regDom seen d1 pages1).2.1 := by
    rw [hdom, hseen1]
    exact ⟨hne, List.mem_cons_self _ _⟩
  have step2 := processPlace_seen_domain regDom _ d2 pages2 h2 hdm2
  rw [step2]
  exact ⟨step1.1, rfl, rfl, rfl, rfl, rfl, rfl, rfl, rfl, rfl⟩

/-- Concrete first place for the C7 witness. -/
def cPlace1 : PlaceDetails :=
  { name := ("Acme S.L.").toList
    formatted_address := ("Calle Mayor 1, Madrid").toList
    formatted_phone_number := ("+34 600 000 001").toList
    website := ("https://acme.es/contacto").toList
    types := [("establishment").toList]
    address_components := [((("Madrid").toList), [("locality").toList])] }

/-- Concrete second place sharing the registrable domain, for the C7
    witness. -/
def cPlace2 : PlaceDetails :=
  { name := ("Acme Norte").toList
    formatted_address := ("Calle Norte 2, Madrid").toList
    formatted_phone_number := ("+34 600 000 002").toList
    website := ("http://www.acme.es/").toList
    types := []
    address_components := [] }

/-- Concrete registrable-domain function for the C7 witness. -/
def cRegDom : List Char → List Char := fun _ => ("acme.es").toList

/-- Witness for C7: the first concrete place crawls, the second does not. -/
theorem c7_domain_dedup_witness :
    (processPlace cRegDom [] cPlace1 [[("info@acme.es").toList]]).2.2 = true ∧
    (processPlace cRegDom
      (processPlace cRegDom [] cPlace1 [[("info@acme.es").toList]]).2.1
      cPlace2 []).2.2 = false :=
  have h := c7_domain_dedup cRegDom [] cPlace1 cPlace2 [[("info@acme.es").toList]] []
    (by decide) (by decide) rfl (by decide) (by decide)
  ⟨h.1, h.2.1⟩

/-- Ranking relation of the dedup-and-rank stage (init_leads.py line 316):
    descending score first, ties broken by ascending classification tag. -/
def rankRel (a b : Row × ℚ) : Prop :=
  b.2 < a.2 ∨ (a.2 = b.2 ∧ a.1.email_tipo ≤ b.1.email_tipo)

instance : DecidableRel rankRel := fun a b => by
  unfold rankRel; infer_instance

instance : IsTotal (Row × ℚ) rankRel := ⟨by
  intro a b
  rcases lt_trichotomy a.2 b.2 with h | h | h
  · right; left; exact h
  · rcases le_total a.1.email_tipo b.1.email_tipo with ht | ht
    · left; right; exact ⟨h, ht⟩
    · right; right; exact ⟨h.symm, ht⟩
  · left; left; exact h⟩

instance : IsTrans (Row × ℚ) rankRel := ⟨by
  intro a b c hab hbc
  rcases hab with h1 | ⟨h1, t1⟩ <;> rcases hbc with h2 | ⟨h2, t2⟩
  · left; exact lt_trans h2 h1
  · left; rw [← h2]; exact h1
  · left; rw [h1]; exact h2
  · right; exact ⟨h1.trans h2, t1.trans t2⟩⟩

/-- Dedup key of drop_duplicates (init_leads.py line 317): the empresa and web
    columns. -/
def rowKey (a : Row × ℚ) : List Char × List Char := (a.1.empresa, a.1.web)

/-- pandas drop_duplicates with keep first: keep each row whose key has not
    been seen before. -/
def dedupByKey : List (List Char × List Char) → List (Row × ℚ) → List (Row × ℚ)
  | _, [] => []
  | seen, x :: xs =>
    if rowKey x ∈ seen then dedupByKey seen xs
    else x :: dedupByKey (rowKey x :: seen) xs

/-- Dedup-and-rank stage (init_leads.py lines 316-317): sort by descending
    score with ties broken by ascending tag, then first-kept dedup on the
    empresa-web pair. -/
def rank_and_dedup (rows : List (Row × ℚ)) : List (Row × ℚ) :=
  dedupByKey [] (List.insertionSort rankRel rows)

theorem dedupByKey_key_not_seen (l : List (Row × ℚ))
    (seen : List (List Char × List Char)) (y : Row × ℚ)
    (h : y ∈ dedupByKey seen l) : rowKey y ∉ seen := by
  induction l generalizing seen with
  | nil => simp [dedupByKey] at h
  | cons x xs ih =>
    by_cases hx : rowKey x ∈ seen
    · rw [dedupByKey, if_pos hx] at h
      exact ih seen h
    · rw [dedupByKey, if_neg hx] at h
      rcases List.mem_cons.mp h with rfl | hmem
      · exact hx
      · have hy := ih _ hmem
        exact fun hc => hy (List.mem_cons_of_mem _ hc)

theorem dedupByKey_mem_iff (l : List (Row × ℚ))
    (seen : List (List Char × List Char)) (y : Row × ℚ)
    (hy : rowKey y ∉ seen) :
    y ∈ dedupByKey seen l ↔
      l.find? (fun z => decide (rowKey z = rowKey y)) = some y := by
  induction l generalizing seen with
  | nil => simp [dedupByKey]
  | cons x xs ih =>
    by_cases hx : rowKey x ∈ seen
    · have hxy : ¬ (rowKey x = rowKey y) := fun he => hy (he ▸ hx)
      rw [dedupByKey, if_pos hx, List.find?_cons_of_neg _ (by simpa using hxy)]
      exact ih seen hy
    · by_cases hxy : rowKey x = rowKey y
      · rw [dedupByKey, if_neg hx, List.find?_cons_of_pos _ (by simpa using hxy)]
        constructor
        · intro h
          rcases List.mem_cons.mp h with rfl | hmem
          · rfl
          · have := dedupByKey_key_not_seen _ _ _ hmem
            exact absurd (List.mem_cons_self _ _) (hxy ▸ this)
        · intro h
          injection h with h
          rw [h]
          exact List.mem_cons_self _ _
      · have hy2 : rowKey y ∉ rowKey x :: seen := by
          intro hc
          rcases List.mem_cons.mp hc with he | he
          · exact hxy he.symm
          · exact hy he
        rw [dedupByKey, if_neg hx, List.find?_cons_of_neg _ (by simpa using hxy)]
        constructor
        · intro h
          rcases List.mem_cons.mp h with rfl | hmem
          · exact absurd rfl hxy
          · exact (ih _ hy2).mp hmem
        · intro h
          exact List.mem_cons_of_mem x ((ih _ hy2).mpr h)

/-- C8: the dedup-and-rank stage sorts all rows (a permutation of the input)
    into descending score order with ties broken by ascending classification
    tag — an order under which corporativo precedes no_encontrado which
    precedes personal — and then keeps, for each empresa-web key, exactly the
    first row of the sorted order carrying that key. -/
theorem c8_rank_and_dedup (rows : List (Row × ℚ)) :
    (List.insertionSort rankRel rows).Perm rows ∧
    List.Sorted rankRel (List.insertionSort rankRel rows) ∧
    (("corporativo").toList < ("no_encontrado").toList ∧
      ("no_encontrado").toList < ("personal").toList) ∧
    (∀ y, y ∈ rank_and_dedup rows ↔
      (List.insertionSort rankRel rows).find?
        (fun z => decide (rowKey z = rowKey y)) = some y) := by
  refine ⟨List.perm_insertionSort rankRel rows,
    List.sorted_insertionSort rankRel rows, by decide, ?_⟩
  intro y
  exact dedupByKey_mem_iff _ [] y (by simp)
